import Mathlib

/-!
# watchit: a verification development

Shallow embedding of the Go packages `watch` (src/watch/watch.go) and
`command` (src/command/command.go, duplicated as src/cmd/cmd.go), followed by
theorems about them.

Go strings are embedded as Lean `String`; the `uint32` operation codes are
embedded as `Nat` (no arithmetic is ever done on them, so no wrap-around is
involved).
-/

set_option autoImplicit false

/-! ## Go standard library: `strings.Join` and `fmt.Sprintf` -/

namespace strings

/-- Go `strings.Join(elems, sep)`: empty for no element, the element itself for
one, otherwise the first element followed by `sep` and each further element,
appended left to right into a builder. -/
def Join (elems : List String) (sep : String) : String :=
  match elems with
  | [] => ""
  | [e] => e
  | e :: rest => rest.foldl (fun b s => b ++ sep ++ s) e

end strings

namespace fmt

/-- Go `fmt.Sprintf` restricted to string operands and to the verbs `%s` and
`%%`, the only ones in this program: a `%s` is replaced by the next operand
(or by `%!s(MISSING)` when none is left), every other character is copied, and
operands left over at the end are reported in a `%!(EXTRA ...)` group. -/
def sprintfChars : List Char → List String → List Char
  | [], [] => []
  | [], a :: args =>
    "%!(EXTRA ".toList ++
      (strings.Join ((a :: args).map (fun x => "string=" ++ x)) ", ").toList ++ [')']
  | '%' :: 's' :: rest, a :: args => a.toList ++ sprintfChars rest args
  | '%' :: 's' :: rest, [] => "%!s(MISSING)".toList ++ sprintfChars rest []
  | '%' :: '%' :: rest, args => '%' :: sprintfChars rest args
  | c :: rest, args => c :: sprintfChars rest args

/-- Go `fmt.Sprintf(format, args...)` on string operands. -/
def Sprintf (format : String) (args : List String) : String :=
  String.mk (sprintfChars format.toList args)

end fmt

/-! ## The raw event source: operation codes of `github.com/radovskyb/watcher` -/

namespace watcher

/-- Operation code of the raw source, `type Op uint32` in the `watcher` package. -/
abbrev Op := Nat

/-- The raw codes, in the order of the `iota` block of the `watcher` package. -/
def Create : Op := 0
def Write : Op := 1
def Remove : Op := 2
def Rename : Op := 3
def Chmod : Op := 4
def Move : Op := 5

/-- Raw event: `watcher.Event`, reduced to the two fields the engine reads. -/
structure Event where
  Op : Op
  Path : String
deriving DecidableEq, Repr

end watcher

/-! ## Package `watch`: operation vocabulary -/

namespace watch

/-- Go `type Op uint32` of package `watch`. -/
abbrev Op := Nat

def Create : Op := 0
def Write : Op := 1
def Remove : Op := 2
def Rename : Op := 3
def Chmod : Op := 4
def Tbi : Op := 5

/-- The map `opStr`, as the list of its key/value pairs. -/
def opStr : List (Op × String) :=
  [ (Create, "CREATE"), (Write, "WRITE"), (Remove, "REMOVE"),
    (Rename, "RENAME"), (Chmod, "CHMOD"), (Tbi, "TBI") ]

/-- Go `func (op Op) Name() string`: the entry of `opStr` when present,
`"UNKNOWN"` otherwise. -/
def Name (op : Op) : String :=
  match opStr.lookup op with
  | some opstr => opstr
  | none => "UNKNOWN"

/-- Go `func xlate(wOp watcher.Op) Op`. -/
def xlate (wOp : watcher.Op) : Op :=
  if wOp = watcher.Create then Create
  else if wOp = watcher.Write then Write
  else if wOp = watcher.Remove then Remove
  else if wOp = watcher.Rename then Rename
  else if wOp = watcher.Chmod then Chmod
  else Tbi

end watch

/-! ## Package `command` -/

namespace command

/-- Go `type Command struct`. -/
structure Command where
  Dirs : List String
  Cmds : List String
  Recursive : Bool
  ext : List String
  Regex : String
  help : Bool
deriving DecidableEq, Repr

/-- Go `func buildRegex(ext []string) string`. -/
def buildRegex (ext : List String) : String :=
  fmt.Sprintf ".+\\.(%s)$" [strings.Join ext "|"]

/-- Go `func new(dirs, cmds, ext []string, recur, help bool) *Command`. -/
def new (dirs cmds ext : List String) (recur help : Bool) : Command :=
  let cmd : Command :=
    { Dirs := dirs, Cmds := cmds, ext := ext, Recursive := recur, help := help, Regex := "" }
  { cmd with Regex := buildRegex cmd.ext }

/-- One flag occurrence of the command line, in the form in which the flag
package (`github.com/spf13/pflag`, not part of this repository) hands it to the
variable registered for the flag: `-d`/`--dirs`, `-c`/`--cmds`, `-e`/`--ext`
with their string value, `-R`/`--recursive` and `-h`/`--help` with their
boolean value. -/
inductive FlagArg where
  | dirs (v : String)
  | cmds (v : String)
  | ext (v : String)
  | recursive (v : Bool)
  | help (v : Bool)
deriving DecidableEq, Repr

/-- The variables bound by the five `cmdf.*VarP` calls of `Parse`, with the
`changed` mark that each string-array flag keeps. -/
structure FlagSet where
  cmd : Command
  dirsChanged : Bool
  cmdsChanged : Bool
  extChanged : Bool
deriving DecidableEq, Repr

/-- Setter of a pflag string-array value: the first occurrence replaces the
default, later occurrences are appended. -/
def stringArraySet (changed : Bool) (value : List String) (v : String) : List String :=
  if changed then value ++ [v] else [v]

/-- Effect of one flag occurrence on the bound variables. -/
def FlagSet.set (f : FlagSet) : FlagArg → FlagSet
  | .dirs v =>
    { f with cmd := { f.cmd with Dirs := stringArraySet f.dirsChanged f.cmd.Dirs v },
             dirsChanged := true }
  | .cmds v =>
    { f with cmd := { f.cmd with Cmds := stringArraySet f.cmdsChanged f.cmd.Cmds v },
             cmdsChanged := true }
  | .ext v =>
    { f with cmd := { f.cmd with ext := stringArraySet f.extChanged f.cmd.ext v },
             extChanged := true }
  | .recursive v => { f with cmd := { f.cmd with Recursive := v } }
  | .help v => { f with cmd := { f.cmd with help := v } }

/-- The flag set as `Parse` registers it: `var cmd Command` with the defaults
`[]`, `[]`, `["md"]`, `false`, `false` written by the `VarP` calls. -/
def flagSetInit : FlagSet :=
  { cmd := { Dirs := [], Cmds := [], ext := ["md"], Recursive := false, help := false,
             Regex := "" },
    dirsChanged := false, cmdsChanged := false, extChanged := false }

/-- How a run of `Parse` ends: it returns a command, or the process exits
through `errExit` (status 1, after printing `Error: msg`) or after the help
text (status 0). -/
inductive Outcome where
  | returned (cmd : Command)
  | errExit (msg : String)
  | helpExit
deriving DecidableEq, Repr

/-- Go `func Parse() *Command`. The argument is what `cmdf.Parse(os.Args)`
yields: the error of the flag package, or the flag occurrences in command-line
order. -/
def Parse (args : Except String (List FlagArg)) : Outcome :=
  match args with
  | .error err => .errExit err
  | .ok occ =>
    let cmd := (occ.foldl FlagSet.set flagSetInit).cmd
    if cmd.Dirs.length = 0 ∨ cmd.Cmds.length = 0 then
      .errExit "-d DIR and -c CMD are required"
    else if cmd.help then
      .helpExit
    else
      .returned { cmd with Regex := buildRegex cmd.ext }

end command

/-! ## The raw event source: state of a `watcher.Watcher` -/

namespace watcher

/-- Go `watcher.FilterFileHookFunc`, on the base name and the full path of a
file: `true` admits the file, `false` is `ErrSkip`. -/
abbrev FilterFileHookFunc := String → String → Bool

/-- The part of `watcher.Watcher` that `Setup` writes: the event cap, the
operation whitelist, the filter hooks and the registered targets (path and
whether it was added recursively), together with the list of registration
calls made on it, failed ones included. -/
structure Watcher where
  maxEvents : Nat
  ops : List Op
  ffh : List FilterFileHookFunc
  names : List (String × Bool)
  addCalls : List (String × Bool)

/-- Go `watcher.New()`. -/
def New : Watcher :=
  { maxEvents := 0, ops := [], ffh := [], names := [], addCalls := [] }

/-- Go `(*Watcher).SetMaxEvents`. -/
def Watcher.SetMaxEvents (wr : Watcher) (delta : Nat) : Watcher :=
  { wr with maxEvents := delta }

/-- Go `(*Watcher).FilterOps`: the whitelist is replaced by the given codes. -/
def Watcher.FilterOps (wr : Watcher) (ops : List Op) : Watcher :=
  { wr with ops := ops }

/-- Go `(*Watcher).AddFilterHook`. -/
def Watcher.AddFilterHook (wr : Watcher) (f : FilterFileHookFunc) : Watcher :=
  { wr with ffh := wr.ffh ++ [f] }

/-- Go `watcher.RegexFilterHook(r, useFullPath)`; the compiled expression is
represented by its `MatchString` predicate. -/
def RegexFilterHook (r : String → Bool) (useFullPath : Bool) : FilterFileHookFunc :=
  fun name fullPath => r (if useFullPath then fullPath else name)

/-- Go `(*Watcher).Add` (`recursive = false`) and `(*Watcher).AddRecursive`
(`recursive = true`). Whether the file system lets the call succeed is given by
`addFails`; a successful call records the target, a failed one returns `true`
(an error) and records nothing but the call. -/
def Watcher.add (addFails : Bool → Watcher → String → Bool) (recursive : Bool)
    (wr : Watcher) (name : String) : Watcher × Bool :=
  if addFails recursive wr name then
    ({ wr with addCalls := wr.addCalls ++ [(name, recursive)] }, true)
  else
    ({ wr with names := wr.names ++ [(name, recursive)],
               addCalls := wr.addCalls ++ [(name, recursive)] }, false)

/-- The raw source hands an event to its `Event` channel only if the whitelist
is empty or holds the event's operation code. -/
def Watcher.delivers (wr : Watcher) (e : Event) : Bool :=
  wr.ops.isEmpty || wr.ops.contains e.Op

/-- What the dispatch loop receives in one `select`: an event, an error or the
closed signal. -/
inductive Signal where
  | event (e : Event)
  | error (err : String)
  | closed
deriving DecidableEq, Repr

end watcher

/-! ## Package `watch`: the engine -/

namespace watch

/-- Go `type Watch struct`. The handler acts on a state `σ` of the caller. -/
structure Watch (σ : Type) where
  Dirs : List String
  Cmds : List String
  Regex : String
  Recursive : Bool
  HandlerCB : Op → String → σ → σ
  watcher : watcher.Watcher

/-- What a run of the dispatch loop has done so far: the caller's state as the
handler left it, the arguments of the handler invocations in the order in which
they were made, and the lines written to the error stream. -/
structure Run (σ : Type) where
  user : σ
  calls : List (Op × String)
  stderr : List String

/-- Go `func (w *Watch) handleEvents()`, run on the signals in the order in
which the `select` receives them. The result also tells whether the loop has
returned (it has not when the signals run out before a closed signal: the loop
is then still waiting). -/
def handleEvents {σ : Type} (w : Watch σ) : List watcher.Signal → Run σ → Run σ × Bool
  | [], r => (r, false)
  | .event event :: rest, r =>
    handleEvents w rest
      { r with user := w.HandlerCB (xlate event.Op) event.Path r.user,
               calls := r.calls ++ [(xlate event.Op, event.Path)] }
  | .error err :: rest, r =>
    handleEvents w rest { r with stderr := r.stderr ++ [fmt.Sprintf "%s" [err]] }
  | .closed :: _, r => (r, true)

/-- Go `func New(dirs, cmds []string, regex string, recursive bool, handler Handler) *Watch`. -/
def New {σ : Type} (dirs cmds : List String) (regex : String) (recursive : Bool)
    (handler : Op → String → σ → σ) : Watch σ :=
  { Dirs := dirs, Cmds := cmds, Regex := regex, Recursive := recursive,
    HandlerCB := handler, watcher := watcher.New }

/-- The `for _, dir := range w.Dirs` loop of `Setup`: the error of the first
failing registration, if any, and the raw source as the loop leaves it. -/
def setupDirs (addFails : Bool → watcher.Watcher → String → Bool) (recursive : Bool) :
    List String → watcher.Watcher → Option String × watcher.Watcher
  | [], wr => (none, wr)
  | dir :: rest, wr =>
    if recursive then
      match wr.add addFails true dir with
      | (wr1, true) => (some (fmt.Sprintf "failed to watch recursive dir: %s" [dir]), wr1)
      | (wr1, false) => setupDirs addFails recursive rest wr1
    else
      match wr.add addFails false dir with
      | (wr1, true) => (some (fmt.Sprintf "failed to watch dir: %s" [dir]), wr1)
      | (wr1, false) => setupDirs addFails recursive rest wr1

/-- Go `func (w *Watch) Setup() error`. `compile` stands for `regexp.Compile`
(a compiled expression being represented by its `MatchString` predicate) and
`addFails` for the file system. The result is the error (`none` is `nil`) and
the engine with its raw source as `Setup` leaves it. -/
def Setup {σ : Type} (compile : String → Option (String → Bool))
    (addFails : Bool → watcher.Watcher → String → Bool) (w : Watch σ) :
    Option String × Watch σ :=
  let wr := w.watcher
  let wr := wr.SetMaxEvents 1
  let wr := wr.FilterOps [watcher.Write]
  match compile w.Regex with
  | none => (some (fmt.Sprintf "couldn't compile regex: %s" [w.Regex]), { w with watcher := wr })
  | some re =>
    let wr := wr.AddFilterHook (watcher.RegexFilterHook re false)
    let r := setupDirs addFails w.Recursive w.Dirs wr
    (r.1, { w with watcher := r.2 })

end watch
/-! ## Go standard library: package `regexp`

`regexp.Compile` and `(*Regexp).MatchString` are not part of this repository.
They are modelled here on the fragment of the RE2 language that `buildRegex`
can produce from plain extension tokens and from tokens that hold operators:
literals, `.`, `^`, `$`, `\` before a punctuation character, groups,
alternation and the repetitions `*`, `+`, `?` (and their non-greedy forms).
The parser follows the operator-stack parser of `regexp/syntax`; what lies
outside the fragment (character classes, counted repetition, escapes of
letters and digits, `(?` groups) is reported as `outsideFragment`.
-/

namespace regexp

/-- Parsed expression: the operators of `regexp/syntax` that the fragment needs. -/
inductive Regexp where
  | noMatch
  | emptyMatch
  | literal (c : Char)
  | anyCharNotNL
  | beginText
  | endText
  | capture (sub : Regexp)
  | star (sub : Regexp)
  | plus (sub : Regexp)
  | quest (sub : Regexp)
  | concat (a b : Regexp)
  | alternate (a b : Regexp)
deriving DecidableEq, Repr

/-- Entry of the parse stack: an expression or one of the two pseudo-operators. -/
inductive Item where
  | re (r : Regexp)
  | leftParen
  | verticalBar
deriving DecidableEq, Repr

/-- Parse errors of `regexp/syntax` that can arise in the fragment, and the
mark for an expression that leaves it. -/
inductive ErrorCode where
  | missingParen
  | unexpectedParen
  | missingRepeatArgument
  | invalidRepeatOp
  | trailingBackslash
  | outsideFragment
deriving DecidableEq, Repr

/-- Pops the expressions above the topmost pseudo-operator; they are returned
in the order in which they were pushed. The stack has its top at the head. -/
def popRegexps : List Item → List Regexp → List Regexp × List Item
  | .re r :: rest, acc => popRegexps rest (r :: acc)
  | stack, acc => (acc, stack)

/-- The `collapse` of the parser on a non-empty list of operands. -/
def collapse (op : Regexp → Regexp → Regexp) : Regexp → List Regexp → Regexp
  | r, [] => r
  | r, r2 :: rest => op r (collapse op r2 rest)

/-- Concatenation of the operands, the empty match when there is none. -/
def concatOf : List Regexp → Regexp
  | [] => .emptyMatch
  | r :: rs => collapse .concat r rs

/-- Alternation of the operands, the expression without a match when there is
none. -/
def alternateOf : List Regexp → Regexp
  | [] => .noMatch
  | r :: rs => collapse .alternate r rs

/-- The parser's `concat`: replaces the expressions above the topmost
pseudo-operator by their concatenation. -/
def concat (stack : List Item) : List Item :=
  .re (concatOf (popRegexps stack []).1) :: (popRegexps stack []).2

/-- The parser's `alternate`: replaces the expressions above the topmost
pseudo-operator by their alternation. -/
def alternate (stack : List Item) : List Item :=
  .re (alternateOf (popRegexps stack []).1) :: (popRegexps stack []).2

/-- The parser's `swapVerticalBar`: an expression on top of a vertical bar is
moved below it. -/
def swapVerticalBar : List Item → List Item × Bool
  | top :: .verticalBar :: rest => (.verticalBar :: top :: rest, true)
  | stack => (stack, false)

/-- The parser's `parseVerticalBar`. -/
def parseVerticalBar (stack : List Item) : List Item :=
  match swapVerticalBar (concat stack) with
  | (stack1, true) => stack1
  | (stack1, false) => .verticalBar :: stack1

/-- The expressions of a finished alternation: the vertical bar on top, if
any, is popped and the operands below it are alternated. -/
def closeAlternation (stack : List Item) : List Item :=
  match swapVerticalBar (concat stack) with
  | (stack1, true) => alternate stack1.tail
  | (stack1, false) => alternate stack1

/-- The parser's `parseRightParen`. -/
def parseRightParen (stack : List Item) : Except ErrorCode (List Item) :=
  match closeAlternation stack with
  | .re re1 :: .leftParen :: rest => .ok (.re (.capture re1) :: rest)
  | _ => .error .unexpectedParen

/-- What the previous round of the parser read: something that is not a
repetition, a repetition operator that a `?` may still mark as non-greedy, a
repetition with its mark, or a backslash whose character is yet to come. -/
inductive Mode where
  | plain
  | operator
  | marked
  | escape
deriving DecidableEq, Repr

/-- The parser's `repeat` for `*`, `+` and `?`: the operator applies to the
expression on top of the stack, and may not follow another repetition. -/
def repeatOp (op : Regexp → Regexp) (mode : Mode) :
    List Item → Except ErrorCode (Mode × List Item)
  | .re sub :: rest =>
    if mode = .plain then .ok (.operator, .re (op sub) :: rest) else .error .invalidRepeatOp
  | _ => .error (if mode = .plain then .missingRepeatArgument else .invalidRepeatOp)

/-- The characters that the parser does not read as themselves
(`Char.ofNat 123` is the left brace). -/
def isMeta (c : Char) : Bool :=
  c = '(' || c = ')' || c = '|' || c = '^' || c = '$' || c = '.' || c = '['
    || c = Char.ofNat 123 || c = '*' || c = '+' || c = '?' || c = '\\'

/-- One round of the parser's main loop on the character `c`, `next` being
the character after it, if any. After a backslash a punctuation character
stands for itself; a `?` right after a repetition operator is its non-greedy
mark, any other repetition operator after a repetition is an error. -/
def step (c : Char) (next : Option Char) (mode : Mode) (stack : List Item) :
    Except ErrorCode (Mode × List Item) :=
  if mode = .escape then
    if c.toNat < 128 ∧ ¬ c.isAlphanum then .ok (.plain, .re (.literal c) :: stack)
    else .error .outsideFragment
  else if c = '(' then
    if next = some '?' then .error .outsideFragment else .ok (.plain, .leftParen :: stack)
  else if c = '|' then .ok (.plain, parseVerticalBar stack)
  else if c = ')' then
    match parseRightParen stack with
    | .ok stack1 => .ok (.plain, stack1)
    | .error e => .error e
  else if c = '^' then .ok (.plain, .re .beginText :: stack)
  else if c = '$' then .ok (.plain, .re .endText :: stack)
  else if c = '.' then .ok (.plain, .re .anyCharNotNL :: stack)
  else if c = '[' ∨ c = Char.ofNat 123 then .error .outsideFragment
  else if c = '?' ∧ mode = .operator then .ok (.marked, stack)
  else if c = '*' then repeatOp .star mode stack
  else if c = '+' then repeatOp .plus mode stack
  else if c = '?' then repeatOp .quest mode stack
  else if c = '\\' then .ok (.escape, stack)
  else .ok (.plain, .re (.literal c) :: stack)

/-- The main loop of the parser, one character at a time; a backslash at the
end of the expression is an error. -/
def parseLoop : List Char → Mode → List Item → Except ErrorCode (List Item)
  | [], mode, stack => if mode = .escape then .error .trailingBackslash else .ok stack
  | c :: t, mode, stack =>
    match step c t.head? mode stack with
    | .ok (mode1, stack1) => parseLoop t mode1 stack1
    | .error e => .error e

/-- The end of `regexp/syntax.Parse`: the last alternation is closed and
exactly one expression must remain. -/
def parseEnd (stack : List Item) : Except ErrorCode Regexp :=
  match closeAlternation stack with
  | [.re r] => .ok r
  | _ => .error .missingParen

/-- The parser of `regexp/syntax` on the fragment. -/
def parse (s : String) : Except ErrorCode Regexp :=
  match parseLoop s.toList .plain [] with
  | .ok stack => parseEnd stack
  | .error e => .error e

/-- All ways of cutting a text in two. -/
def splits : List Char → List (List Char × List Char)
  | [] => [([], [])]
  | c :: cs => ([], c :: cs) :: (splits cs).map (fun p => (c :: p.1, p.2))

/-- Whether a text is a sequence of at most `n` non-empty pieces, each matched
by `f`. A piece is matched knowing whether it starts at the beginning of the
whole text and whether it ends at its end. -/
def repeatSpan (f : Bool → Bool → List Char → Bool) : Nat → Bool → Bool → List Char → Bool
  | 0, _, _, s => s.isEmpty
  | n + 1, atBegin, atEnd, s =>
    s.isEmpty || (splits s).any (fun p =>
      !p.1.isEmpty && f atBegin (atEnd && p.2.isEmpty) p.1 && repeatSpan f n false atEnd p.2)

/-- Whether the expression matches exactly the piece `s` of a text, `atBegin`
and `atEnd` telling whether the piece starts at the beginning of the text and
ends at its end. -/
def matchSpan : Regexp → Bool → Bool → List Char → Bool
  | .noMatch, _, _, _ => false
  | .emptyMatch, _, _, s => s.isEmpty
  | .literal c, _, _, s => s == [c]
  | .anyCharNotNL, _, _, s =>
    match s with
    | [c] => c != '\n'
    | _ => false
  | .beginText, atBegin, _, s => s.isEmpty && atBegin
  | .endText, _, atEnd, s => s.isEmpty && atEnd
  | .capture sub, atBegin, atEnd, s => matchSpan sub atBegin atEnd s
  | .star sub, atBegin, atEnd, s =>
    repeatSpan (fun b e x => matchSpan sub b e x) s.length atBegin atEnd s
  | .plus sub, atBegin, atEnd, s =>
    (splits s).any (fun p =>
      matchSpan sub atBegin (atEnd && p.2.isEmpty) p.1 &&
        repeatSpan (fun b e x => matchSpan sub b e x) p.2.length
          (atBegin && p.1.isEmpty) atEnd p.2)
  | .quest sub, atBegin, atEnd, s => s.isEmpty || matchSpan sub atBegin atEnd s
  | .concat a b, atBegin, atEnd, s =>
    (splits s).any (fun p =>
      matchSpan a atBegin (atEnd && p.2.isEmpty) p.1 &&
        matchSpan b (atBegin && p.1.isEmpty) atEnd p.2)
  | .alternate a b, atBegin, atEnd, s => matchSpan a atBegin atEnd s || matchSpan b atBegin atEnd s

/-- Go `(*Regexp).MatchString`: whether some piece of the text matches. -/
def Regexp.MatchString (re : Regexp) (s : String) : Bool :=
  (splits s.toList).any (fun p =>
    (splits p.2).any (fun q => matchSpan re p.1.isEmpty q.2.isEmpty q.1))

/-- Go `regexp.Compile` on the fragment, a compiled expression being
represented by its `MatchString` predicate; `none` is a compile error. An
expression that leaves the fragment also gives `none` here, which says nothing
about what Go does with it: the properties that range over all patterns take
the compile function as a parameter, and this one is used only on expressions
of the fragment. -/
def Compile (expr : String) : Option (String → Bool) :=
  match parse expr with
  | .ok re => some re.MatchString
  | .error _ => none

end regexp
/-! ## Package `main` -/

namespace main

/-- Go `func handler(op watch.Op, fileName string)`: prints the operation name
and the file; the state is the text printed so far. -/
def handler (op : watch.Op) (fileName : String) (stdout : List String) : List String :=
  stdout ++ [fmt.Sprintf "op=%s file=%s" [watch.Name op, fileName]]

/-- The first two statements of Go `func main()`: `command.Parse()` followed by
`watch.New(c.Dirs, c.Cmds, c.Regex, c.Recursive, handler)`. `none` means that
`Parse` has ended the process and no configuration exists. -/
def configure {σ : Type} (args : Except String (List command.FlagArg))
    (handler : watch.Op → String → σ → σ) : Option (watch.Watch σ) :=
  match command.Parse args with
  | .returned c => some (watch.New c.Dirs c.Cmds c.Regex c.Recursive handler)
  | _ => none

end main

/-! ## Vocabulary of the properties -/

namespace Props

/-- The tokens joined with `sep`, in the order supplied. -/
def joinedWith (sep : String) : List String → String
  | [] => ""
  | [t] => t
  | t :: rest => t ++ sep ++ joinedWith sep rest

/-- The signals that precede the first closed signal. -/
def beforeClosed (sigs : List watcher.Signal) : List watcher.Signal :=
  sigs.takeWhile (fun s => s != .closed)

/-- The event signals among the given signals, in order. -/
def eventsOf (sigs : List watcher.Signal) : List watcher.Event :=
  sigs.filterMap (fun s => match s with
    | .event e => some e
    | _ => none)

/-- The error signals among the given signals, in order. -/
def errorsOf (sigs : List watcher.Signal) : List String :=
  sigs.filterMap (fun s => match s with
    | .error err => some err
    | _ => none)

/-- The signals that the raw source lets through its operation whitelist:
events whose code the whitelist rejects are dropped. -/
def throughWhitelist (wr : watcher.Watcher) (sigs : List watcher.Signal) :
    List watcher.Signal :=
  sigs.filter (fun s => match s with
    | .event e => wr.delivers e
    | _ => true)

/-- The raw source once `Setup` has installed the event cap, the whitelist
and the name filter built from the compiled expression `re`. -/
def withFilters (wr : watcher.Watcher) (re : String → Bool) : watcher.Watcher :=
  { wr with maxEvents := 1, ops := [watcher.Write],
            ffh := wr.ffh ++ [watcher.RegexFilterHook re false] }

/-- The raw source after the directories `ds` have been registered in order,
each with the given recursion mode. -/
def registered (wr : watcher.Watcher) (recursive : Bool) (ds : List String) :
    watcher.Watcher :=
  { wr with names := wr.names ++ ds.map (fun d => (d, recursive)),
            addCalls := wr.addCalls ++ ds.map (fun d => (d, recursive)) }

/-- The raw source after a registration of `dir` has been tried and has failed. -/
def attempted (wr : watcher.Watcher) (recursive : Bool) (dir : String) : watcher.Watcher :=
  { wr with addCalls := wr.addCalls ++ [(dir, recursive)] }

/-- The values given to `-d`/`--dirs`, in command-line order. -/
def dirsOf (occ : List command.FlagArg) : List String :=
  occ.filterMap (fun a => match a with
    | .dirs v => some v
    | _ => none)

/-- The values given to `-c`/`--cmds`, in command-line order. -/
def cmdsOf (occ : List command.FlagArg) : List String :=
  occ.filterMap (fun a => match a with
    | .cmds v => some v
    | _ => none)

/-- The values given to `-e`/`--ext`, in command-line order. -/
def extGiven (occ : List command.FlagArg) : List String :=
  occ.filterMap (fun a => match a with
    | .ext v => some v
    | _ => none)

/-- The extensions of a command line: those given, or `["md"]` when none was. -/
def extOf (occ : List command.FlagArg) : List String :=
  if extGiven occ = [] then ["md"] else extGiven occ

/-- The last value given to `-R`/`--recursive`, `false` when there is none. -/
def recursiveOf (occ : List command.FlagArg) : Bool :=
  ((occ.filterMap (fun a => match a with
    | .recursive v => some v
    | _ => none)).getLast?).getD false

/-- The last value given to `-h`/`--help`, `false` when there is none: whether
help is requested. -/
def helpOf (occ : List command.FlagArg) : Bool :=
  ((occ.filterMap (fun a => match a with
    | .help v => some v
    | _ => none)).getLast?).getD false

/-- The expression that reads a token character by character. -/
def tokenLiteral (t : String) : regexp.Regexp :=
  regexp.concatOf (t.toList.map .literal)

/-- The expression `.+\.(t1|...|tn)$` in which every token is read character by
character. -/
def suffixPattern (toks : List String) : regexp.Regexp :=
  .concat (.plus .anyCharNotNL)
    (.concat (.literal '.')
      (.concat (.capture (regexp.alternateOf (toks.map tokenLiteral))) .endText))

/-- The parse stack above the left parenthesis of a group whose alternatives
`done` are finished: nothing for none, else the alternatives under a vertical
bar. -/
def pendingAlternatives (done : List regexp.Regexp) : List regexp.Item :=
  match done with
  | [] => []
  | _ :: _ => .verticalBar :: done.reverse.map .re

/-- The characters of the tokens, each token preceded by a vertical bar. -/
def barred : List String → List Char
  | [] => []
  | u :: rest => '|' :: (u.toList ++ barred rest)

/-- A token made of characters that the expression language reads as
themselves. -/
def plainToken (t : String) : Prop :=
  ∀ c ∈ t.toList, regexp.isMeta c = false

/-- The name ends in a dot followed by the token. -/
def endsInDotToken (name t : String) : Prop :=
  ∃ pre : String, name = pre ++ "." ++ t

/-- The name ends in a character other than a line feed, followed by a dot,
followed by the token. -/
def endsInCharDotToken (name t : String) : Prop :=
  ∃ (pre : String) (c : Char), c ≠ '\n' ∧ name = pre ++ String.singleton c ++ "." ++ t

end Props
/-! ## Lemmas on `strings.Join` and `fmt.Sprintf` -/

theorem strings.foldl_sep_append (sep a x : String) (rest : List String) :
    rest.foldl (fun b s => b ++ sep ++ s) (a ++ x) =
      a ++ rest.foldl (fun b s => b ++ sep ++ s) x := by
  induction rest generalizing x with
  | nil => rfl
  | cons s rest ih =>
    simp only [List.foldl_cons]
    rw [← ih]
    simp [String.append_assoc]

theorem strings.Join_cons_cons (sep t u : String) (rest : List String) :
    strings.Join (t :: u :: rest) sep = t ++ sep ++ strings.Join (u :: rest) sep := by
  have h : strings.Join (u :: rest) sep = rest.foldl (fun b s => b ++ sep ++ s) u := by
    cases rest <;> rfl
  rw [h]
  show (u :: rest).foldl (fun b s => b ++ sep ++ s) t = _
  simp only [List.foldl_cons]
  rw [String.append_assoc, strings.foldl_sep_append, String.append_assoc,
    strings.foldl_sep_append]

theorem strings.Join_eq_joinedWith (sep : String) (elems : List String) :
    strings.Join elems sep = Props.joinedWith sep elems := by
  induction elems with
  | nil => rfl
  | cons t rest ih =>
    cases rest with
    | nil => rfl
    | cons u rest =>
      rw [strings.Join_cons_cons, ih]
      rfl

theorem fmt.Sprintf_verb (x : String) : fmt.Sprintf "%s" [x] = x := by
  apply String.ext
  simp [fmt.Sprintf, fmt.sprintfChars]

theorem fmt.Sprintf_pattern (x : String) :
    fmt.Sprintf ".+\\.(%s)$" [x] = ".+\\.(" ++ x ++ ")$" := by
  apply String.ext
  simp [fmt.Sprintf, fmt.sprintfChars]

theorem fmt.Sprintf_regex_error (x : String) :
    fmt.Sprintf "couldn't compile regex: %s" [x] = "couldn't compile regex: " ++ x := by
  apply String.ext
  simp [fmt.Sprintf, fmt.sprintfChars]

theorem fmt.Sprintf_dir_error (x : String) :
    fmt.Sprintf "failed to watch dir: %s" [x] = "failed to watch dir: " ++ x := by
  apply String.ext
  simp [fmt.Sprintf, fmt.sprintfChars]

theorem fmt.Sprintf_recursive_dir_error (x : String) :
    fmt.Sprintf "failed to watch recursive dir: %s" [x] =
      "failed to watch recursive dir: " ++ x := by
  apply String.ext
  simp [fmt.Sprintf, fmt.sprintfChars]

/-! ## Operation vocabulary -/

/-- C7: `xlate` is a function defined on every raw code: the five recognised
codes Create, Write, Remove, Rename and Chmod go to the operation of the same
name, the raw source's Move code goes to `Tbi`, and every raw code is either one
of the five recognised ones or goes to `Tbi`. -/
theorem C7_xlate_total :
    watch.xlate watcher.Create = watch.Create ∧
    watch.xlate watcher.Write = watch.Write ∧
    watch.xlate watcher.Remove = watch.Remove ∧
    watch.xlate watcher.Rename = watch.Rename ∧
    watch.xlate watcher.Chmod = watch.Chmod ∧
    watch.xlate watcher.Move = watch.Tbi ∧
    ∀ wOp : watcher.Op,
      wOp ∈ [watcher.Create, watcher.Write, watcher.Remove, watcher.Rename, watcher.Chmod] ∨
        watch.xlate wOp = watch.Tbi := by
  refine ⟨rfl, rfl, rfl, rfl, rfl, rfl, ?_⟩
  intro wOp
  by_cases h : wOp ∈ [watcher.Create, watcher.Write, watcher.Remove, watcher.Rename,
      watcher.Chmod]
  · exact Or.inl h
  · right
    simp only [List.mem_cons, List.mem_singleton, List.not_mem_nil, or_false, not_or] at h
    obtain ⟨h0, h1, h2, h3, h4⟩ := h
    simp [watch.xlate, h0, h1, h2, h3, h4]

/-- C10: `Name` is a function defined on every `Op`: the six defined
operations return "CREATE", "WRITE", "REMOVE", "RENAME", "CHMOD" and "TBI", and
every `Op` is either one of the six or returns "UNKNOWN". -/
theorem C10_Name_total :
    watch.Name watch.Create = "CREATE" ∧
    watch.Name watch.Write = "WRITE" ∧
    watch.Name watch.Remove = "REMOVE" ∧
    watch.Name watch.Rename = "RENAME" ∧
    watch.Name watch.Chmod = "CHMOD" ∧
    watch.Name watch.Tbi = "TBI" ∧
    ∀ op : watch.Op,
      op ∈ [watch.Create, watch.Write, watch.Remove, watch.Rename, watch.Chmod, watch.Tbi] ∨
        watch.Name op = "UNKNOWN" := by
  refine ⟨by decide, by decide, by decide, by decide, by decide, by decide, ?_⟩
  intro op
  by_cases h : op ∈ [watch.Create, watch.Write, watch.Remove, watch.Rename, watch.Chmod,
      watch.Tbi]
  · exact Or.inl h
  · right
    simp only [List.mem_cons, List.mem_singleton, List.not_mem_nil, or_false, not_or] at h
    obtain ⟨h0, h1, h2, h3, h4, h5⟩ := h
    have e0 : (op == watch.Create) = false := by simpa using h0
    have e1 : (op == watch.Write) = false := by simpa using h1
    have e2 : (op == watch.Remove) = false := by simpa using h2
    have e3 : (op == watch.Rename) = false := by simpa using h3
    have e4 : (op == watch.Chmod) = false := by simpa using h4
    have e5 : (op == watch.Tbi) = false := by simpa using h5
    simp [watch.Name, watch.opStr, List.lookup, e0, e1, e2, e3, e4, e5]

/-! ## Pattern building -/

/-- C5: for every list of extension tokens, `buildRegex` returns `.+\.(`
followed by the tokens joined with `|` in the order supplied, followed by `)$`;
in particular [md] gives `.+\.(md)$`, [txt] gives `.+\.(txt)$`, [html] gives
`.+\.(html)$` and [md, txt] gives `.+\.(md|txt)$`. -/
theorem C5_buildRegex_pattern :
    (∀ ext : List String,
      command.buildRegex ext = ".+\\.(" ++ Props.joinedWith "|" ext ++ ")$") ∧
    command.buildRegex ["md"] = ".+\\.(md)$" ∧
    command.buildRegex ["txt"] = ".+\\.(txt)$" ∧
    command.buildRegex ["html"] = ".+\\.(html)$" ∧
    command.buildRegex ["md", "txt"] = ".+\\.(md|txt)$" := by
  refine ⟨?_, by decide, by decide, by decide, by decide⟩
  intro ext
  rw [command.buildRegex, fmt.Sprintf_pattern, strings.Join_eq_joinedWith]

/-! ## The dispatch loop -/

theorem watch.handleEvents_eq {σ : Type} (w : watch.Watch σ) (sigs : List watcher.Signal)
    (r : watch.Run σ) :
    watch.handleEvents w sigs r =
      ({ user := (Props.eventsOf (Props.beforeClosed sigs)).foldl
                   (fun s e => w.HandlerCB (watch.xlate e.Op) e.Path s) r.user,
         calls := r.calls ++ (Props.eventsOf (Props.beforeClosed sigs)).map
                   (fun e => (watch.xlate e.Op, e.Path)),
         stderr := r.stderr ++ Props.errorsOf (Props.beforeClosed sigs) },
       decide (watcher.Signal.closed ∈ sigs)) := by
  induction sigs generalizing r with
  | nil => simp [watch.handleEvents, Props.eventsOf, Props.errorsOf, Props.beforeClosed]
  | cons sig rest ih =>
    cases sig with
    | event e =>
      rw [watch.handleEvents, ih]
      simp [Props.eventsOf, Props.errorsOf, Props.beforeClosed, List.takeWhile_cons]
    | error err =>
      rw [watch.handleEvents, ih]
      simp [Props.eventsOf, Props.errorsOf, Props.beforeClosed, List.takeWhile_cons,
        fmt.Sprintf_verb]
    | closed =>
      simp [watch.handleEvents, Props.eventsOf, Props.errorsOf, Props.beforeClosed,
        List.takeWhile_cons]

/-- C1: for every finite sequence of signals and every state in which the loop
starts, `handleEvents` invokes the handler exactly once for each event signal
that precedes the first closed signal, with the arguments
`(xlate event.Op, event.Path)` and in the order received (the caller's state is
the handler folded over these events, the invocation record grows by exactly
these argument pairs); the error signals before the first closed signal add
their text to the error stream and nothing else; nothing after the first closed
signal has any effect, and the loop has returned exactly when a closed signal
was received. -/
theorem C1_handleEvents_dispatch {σ : Type} (w : watch.Watch σ)
    (sigs : List watcher.Signal) (r : watch.Run σ) :
    watch.handleEvents w sigs r =
      ({ user := (Props.eventsOf (Props.beforeClosed sigs)).foldl
                   (fun s e => w.HandlerCB (watch.xlate e.Op) e.Path s) r.user,
         calls := r.calls ++ (Props.eventsOf (Props.beforeClosed sigs)).map
                   (fun e => (watch.xlate e.Op, e.Path)),
         stderr := r.stderr ++ Props.errorsOf (Props.beforeClosed sigs) },
       decide (watcher.Signal.closed ∈ sigs)) :=
  watch.handleEvents_eq w sigs r

/-! ## Setup -/

theorem Props.registered_nil (wr : watcher.Watcher) (recursive : Bool) :
    Props.registered wr recursive [] = wr := by
  cases wr
  simp [Props.registered]

theorem Props.registered_cons (wr : watcher.Watcher) (recursive : Bool) (d : String)
    (ds : List String) :
    Props.registered (Props.registered wr recursive [d]) recursive ds =
      Props.registered wr recursive (d :: ds) := by
  simp [Props.registered]

theorem watcher.add_ok (addFails : Bool → watcher.Watcher → String → Bool) (recursive : Bool)
    (wr : watcher.Watcher) (d : String) (h : addFails recursive wr d = false) :
    wr.add addFails recursive d = (Props.registered wr recursive [d], false) := by
  simp [watcher.Watcher.add, h, Props.registered]

theorem watcher.add_fails (addFails : Bool → watcher.Watcher → String → Bool)
    (recursive : Bool) (wr : watcher.Watcher) (d : String)
    (h : addFails recursive wr d = true) :
    wr.add addFails recursive d = (Props.attempted wr recursive d, true) := by
  simp [watcher.Watcher.add, h, Props.attempted]

theorem watch.setupDirs_cons_ok (addFails : Bool → watcher.Watcher → String → Bool)
    (recursive : Bool) (wr : watcher.Watcher) (d : String) (rest : List String)
    (h : addFails recursive wr d = false) :
    watch.setupDirs addFails recursive (d :: rest) wr =
      watch.setupDirs addFails recursive rest (Props.registered wr recursive [d]) := by
  cases recursive
  · simp [watch.setupDirs, watcher.add_ok addFails false wr d h]
  · simp [watch.setupDirs, watcher.add_ok addFails true wr d h]

theorem watch.setupDirs_cons_fails (addFails : Bool → watcher.Watcher → String → Bool)
    (recursive : Bool) (wr : watcher.Watcher) (d : String) (rest : List String)
    (h : addFails recursive wr d = true) :
    watch.setupDirs addFails recursive (d :: rest) wr =
      (some ((if recursive then "failed to watch recursive dir: "
              else "failed to watch dir: ") ++ d),
        Props.attempted wr recursive d) := by
  cases recursive
  · simp [watch.setupDirs, watcher.add_fails addFails false wr d h, fmt.Sprintf_dir_error]
  · simp [watch.setupDirs, watcher.add_fails addFails true wr d h,
      fmt.Sprintf_recursive_dir_error]

theorem watch.setupDirs_append_ok (addFails : Bool → watcher.Watcher → String → Bool)
    (recursive : Bool) (pre rest : List String) (wr : watcher.Watcher)
    (h : ∀ (k : Nat) (hk : k < pre.length),
      addFails recursive (Props.registered wr recursive (pre.take k)) (pre.get ⟨k, hk⟩) = false) :
    watch.setupDirs addFails recursive (pre ++ rest) wr =
      watch.setupDirs addFails recursive rest (Props.registered wr recursive pre) := by
  induction pre generalizing wr with
  | nil => simp [Props.registered_nil]
  | cons d pre ih =>
    have h0 : addFails recursive wr d = false := by
      have := h 0 (by simp)
      simpa [Props.registered_nil] using this
    rw [List.cons_append, watch.setupDirs_cons_ok addFails recursive wr d _ h0,
      ih (Props.registered wr recursive [d]), Props.registered_cons]
    intro k hk
    have := h (k + 1) (by simpa using hk)
    simpa [Props.registered_cons] using this

theorem watch.setupDirs_ops (addFails : Bool → watcher.Watcher → String → Bool)
    (recursive : Bool) (ds : List String) (wr : watcher.Watcher) :
    (watch.setupDirs addFails recursive ds wr).2.ops = wr.ops := by
  induction ds generalizing wr with
  | nil => rfl
  | cons d ds ih =>
    cases h : addFails recursive wr d
    · rw [watch.setupDirs_cons_ok addFails recursive wr d ds h, ih]
      rfl
    · rw [watch.setupDirs_cons_fails addFails recursive wr d ds h]
      rfl

theorem watch.Setup_ops {σ : Type} (compile : String → Option (String → Bool))
    (addFails : Bool → watcher.Watcher → String → Bool) (w : watch.Watch σ) :
    (watch.Setup compile addFails w).2.watcher.ops = [watcher.Write] := by
  unfold watch.Setup
  cases compile w.Regex with
  | none => rfl
  | some re =>
    simp only [watch.setupDirs_ops]
    rfl

theorem watch.Setup_compiled {σ : Type} (compile : String → Option (String → Bool))
    (addFails : Bool → watcher.Watcher → String → Bool) (w : watch.Watch σ)
    (re : String → Bool) (hc : compile w.Regex = some re) :
    watch.Setup compile addFails w =
      ((watch.setupDirs addFails w.Recursive w.Dirs (Props.withFilters w.watcher re)).1,
       { w with watcher :=
          (watch.setupDirs addFails w.Recursive w.Dirs (Props.withFilters w.watcher re)).2 }) := by
  unfold watch.Setup
  rw [hc]
  rfl

/-- C2: whatever the configuration, the pattern and the file system, `Setup`
leaves on the raw source the operation whitelist that holds `Write` only; the
signals that the raw source lets through that whitelist are then all signals but
the events whose raw code is not `Write` (Create, Remove, Rename, Chmod and any
other code are dropped), and every handler invocation that `handleEvents` makes
on them has the operation `Write`. -/
theorem C2_setup_write_only {σ : Type} (compile : String → Option (String → Bool))
    (addFails : Bool → watcher.Watcher → String → Bool) (w : watch.Watch σ)
    (sigs : List watcher.Signal) (r : watch.Run σ) :
    (watch.Setup compile addFails w).2.watcher.ops = [watcher.Write] ∧
    Props.throughWhitelist (watch.Setup compile addFails w).2.watcher sigs =
      sigs.filter (fun s => match s with
        | .event e => decide (e.Op = watcher.Write)
        | _ => true) ∧
    (watch.handleEvents (watch.Setup compile addFails w).2
        (Props.throughWhitelist (watch.Setup compile addFails w).2.watcher sigs) r).1.calls =
      r.calls ++ (Props.eventsOf (Props.beforeClosed
        (Props.throughWhitelist (watch.Setup compile addFails w).2.watcher sigs))).map
          (fun e => (watch.Write, e.Path)) := by
  have hops := watch.Setup_ops compile addFails w
  have hthrough : Props.throughWhitelist (watch.Setup compile addFails w).2.watcher sigs =
      sigs.filter (fun s => match s with
        | .event e => decide (e.Op = watcher.Write)
        | _ => true) := by
    unfold Props.throughWhitelist
    apply List.filter_congr
    intro s _
    cases s with
    | event e => simp [watcher.Watcher.delivers, hops, eq_comm]
    | error err => rfl
    | closed => rfl
  refine ⟨hops, hthrough, ?_⟩
  rw [watch.handleEvents_eq, hthrough]
  simp only [List.append_cancel_left_eq]
  apply List.map_congr_left
  intro e he
  have hmem : watcher.Signal.event e ∈ sigs.filter (fun s => match s with
        | .event e => decide (e.Op = watcher.Write)
        | _ => true) := by
    have h1 : watcher.Signal.event e ∈ Props.beforeClosed (sigs.filter (fun s => match s with
        | .event e => decide (e.Op = watcher.Write)
        | _ => true)) := by
      unfold Props.eventsOf at he
      rw [List.mem_filterMap] at he
      obtain ⟨s, hs, hse⟩ := he
      cases s with
      | event e1 =>
        simp only [Option.some.injEq] at hse
        rw [← hse]
        exact hs
      | error err => simp at hse
      | closed => simp at hse
    exact List.takeWhile_subset _ h1
  have hop : e.Op = watcher.Write := by
    have := (List.mem_filter.mp hmem).2
    simpa using this
  rw [hop]
  rfl

theorem watch.Setup_bad_regex {σ : Type} (compile : String → Option (String → Bool))
    (addFails : Bool → watcher.Watcher → String → Bool) (w : watch.Watch σ)
    (hc : compile w.Regex = none) :
    (watch.Setup compile addFails w).1 = some ("couldn't compile regex: " ++ w.Regex) ∧
    (watch.Setup compile addFails w).2.watcher.ffh = w.watcher.ffh ∧
    (watch.Setup compile addFails w).2.watcher.names = w.watcher.names ∧
    (watch.Setup compile addFails w).2.watcher.addCalls = w.watcher.addCalls := by
  unfold watch.Setup
  rw [hc]
  refine ⟨?_, rfl, rfl, rfl⟩
  simp only [fmt.Sprintf_regex_error]

/-- C4: for every configuration whose `Regex` string does not compile, `Setup`
returns the error "couldn't compile regex: " followed by that exact string,
installs no name-filter hook and registers no directory (it does not even try
to register one). -/
theorem C4_setup_bad_regex {σ : Type} (compile : String → Option (String → Bool))
    (addFails : Bool → watcher.Watcher → String → Bool) (w : watch.Watch σ)
    (hc : compile w.Regex = none) :
    (watch.Setup compile addFails w).1 = some ("couldn't compile regex: " ++ w.Regex) ∧
    (watch.Setup compile addFails w).2.watcher.ffh = w.watcher.ffh ∧
    (watch.Setup compile addFails w).2.watcher.names = w.watcher.names ∧
    (watch.Setup compile addFails w).2.watcher.addCalls = w.watcher.addCalls :=
  watch.Setup_bad_regex compile addFails w hc

/-- C3: for every configuration whose `Regex` compiles, `Setup` registers the
configured directories in list order, each with the recursion mode of the
configuration. If the directory `dir`, standing after the directories `pre` in
the list, is the first whose registration fails, `Setup` returns the error
"failed to watch dir: dir" ("failed to watch recursive dir: dir" in recursive
mode), the directories of `pre` are registered and stay so, the failed call is
the last registration call made, and nothing that follows `dir` is tried. If no
registration fails, `Setup` returns nil and every configured directory is
registered. -/
theorem C3_setup_registration {σ : Type} (compile : String → Option (String → Bool))
    (addFails : Bool → watcher.Watcher → String → Bool) (w : watch.Watch σ)
    (re : String → Bool) (hc : compile w.Regex = some re) :
    (∀ (pre : List String) (dir : String) (post : List String),
      w.Dirs = pre ++ dir :: post →
      (∀ (k : Nat) (hk : k < pre.length),
        addFails w.Recursive
          (Props.registered (Props.withFilters w.watcher re) w.Recursive (pre.take k))
          (pre.get ⟨k, hk⟩) = false) →
      addFails w.Recursive
        (Props.registered (Props.withFilters w.watcher re) w.Recursive pre) dir = true →
      watch.Setup compile addFails w =
        (some ((if w.Recursive then "failed to watch recursive dir: "
                else "failed to watch dir: ") ++ dir),
         { w with watcher :=
            (Props.attempted
              (Props.registered (Props.withFilters w.watcher re) w.Recursive pre)
              w.Recursive dir) })) ∧
    ((∀ (k : Nat) (hk : k < w.Dirs.length),
        addFails w.Recursive
          (Props.registered (Props.withFilters w.watcher re) w.Recursive (w.Dirs.take k))
          (w.Dirs.get ⟨k, hk⟩) = false) →
      watch.Setup compile addFails w =
        (none,
         { w with watcher :=
            (Props.registered (Props.withFilters w.watcher re) w.Recursive w.Dirs) })) := by
  rw [watch.Setup_compiled compile addFails w re hc]
  constructor
  · intro pre dir post hd hpre hdir
    rw [hd, watch.setupDirs_append_ok addFails w.Recursive pre (dir :: post) _ hpre,
      watch.setupDirs_cons_fails addFails w.Recursive _ dir post hdir]
  · intro hall
    have := watch.setupDirs_append_ok addFails w.Recursive w.Dirs [] _ hall
    rw [List.append_nil] at this
    rw [this]
    rfl

/-! ## Parse -/

theorem command.foldl_set_Dirs (occ : List command.FlagArg) (f : command.FlagSet) :
    (occ.foldl command.FlagSet.set f).cmd.Dirs =
      if Props.dirsOf occ = [] then f.cmd.Dirs
      else (if f.dirsChanged then f.cmd.Dirs else []) ++ Props.dirsOf occ := by
  induction occ generalizing f with
  | nil => simp [Props.dirsOf]
  | cons a occ ih =>
    rw [List.foldl_cons, ih]
    cases a <;> cases hch : f.dirsChanged <;>
      by_cases hd : Props.dirsOf occ = [] <;>
      simp_all [Props.dirsOf, command.FlagSet.set, command.stringArraySet]

theorem command.foldl_set_Cmds (occ : List command.FlagArg) (f : command.FlagSet) :
    (occ.foldl command.FlagSet.set f).cmd.Cmds =
      if Props.cmdsOf occ = [] then f.cmd.Cmds
      else (if f.cmdsChanged then f.cmd.Cmds else []) ++ Props.cmdsOf occ := by
  induction occ generalizing f with
  | nil => simp [Props.cmdsOf]
  | cons a occ ih =>
    rw [List.foldl_cons, ih]
    cases a <;> cases hch : f.cmdsChanged <;>
      by_cases hd : Props.cmdsOf occ = [] <;>
      simp_all [Props.cmdsOf, command.FlagSet.set, command.stringArraySet]

theorem command.foldl_set_ext (occ : List command.FlagArg) (f : command.FlagSet) :
    (occ.foldl command.FlagSet.set f).cmd.ext =
      if Props.extGiven occ = [] then f.cmd.ext
      else (if f.extChanged then f.cmd.ext else []) ++ Props.extGiven occ := by
  induction occ generalizing f with
  | nil => simp [Props.extGiven]
  | cons a occ ih =>
    rw [List.foldl_cons, ih]
    cases a <;> cases hch : f.extChanged <;>
      by_cases hd : Props.extGiven occ = [] <;>
      simp_all [Props.extGiven, command.FlagSet.set, command.stringArraySet]

theorem command.foldl_set_Recursive (occ : List command.FlagArg) (f : command.FlagSet) :
    (occ.foldl command.FlagSet.set f).cmd.Recursive =
      ((occ.filterMap (fun a => match a with
        | .recursive v => some v
        | _ => none)).getLast?).getD f.cmd.Recursive := by
  induction occ generalizing f with
  | nil => simp
  | cons a occ ih =>
    rw [List.foldl_cons, ih]
    cases a <;> simp [command.FlagSet.set, List.getLast?_cons]

theorem command.foldl_set_help (occ : List command.FlagArg) (f : command.FlagSet) :
    (occ.foldl command.FlagSet.set f).cmd.help =
      ((occ.filterMap (fun a => match a with
        | .help v => some v
        | _ => none)).getLast?).getD f.cmd.help := by
  induction occ generalizing f with
  | nil => simp
  | cons a occ ih =>
    rw [List.foldl_cons, ih]
    cases a <;> simp [command.FlagSet.set, List.getLast?_cons]

theorem command.Parse_ok (occ : List command.FlagArg) :
    command.Parse (.ok occ) =
      if Props.dirsOf occ = [] ∨ Props.cmdsOf occ = [] then
        .errExit "-d DIR and -c CMD are required"
      else if Props.helpOf occ = true then .helpExit
      else .returned (command.new (Props.dirsOf occ) (Props.cmdsOf occ) (Props.extOf occ)
        (Props.recursiveOf occ) false) := by
  have hD := command.foldl_set_Dirs occ command.flagSetInit
  have hC := command.foldl_set_Cmds occ command.flagSetInit
  have hE := command.foldl_set_ext occ command.flagSetInit
  have hR := command.foldl_set_Recursive occ command.flagSetInit
  have hH := command.foldl_set_help occ command.flagSetInit
  have hD1 : (occ.foldl command.FlagSet.set command.flagSetInit).cmd.Dirs = Props.dirsOf occ := by
    rw [hD]
    by_cases h : Props.dirsOf occ = [] <;> simp [h, command.flagSetInit]
  have hC1 : (occ.foldl command.FlagSet.set command.flagSetInit).cmd.Cmds = Props.cmdsOf occ := by
    rw [hC]
    by_cases h : Props.cmdsOf occ = [] <;> simp [h, command.flagSetInit]
  have hE1 : (occ.foldl command.FlagSet.set command.flagSetInit).cmd.ext = Props.extOf occ := by
    rw [hE]
    by_cases h : Props.extGiven occ = [] <;> simp [h, command.flagSetInit, Props.extOf]
  have hR1 : (occ.foldl command.FlagSet.set command.flagSetInit).cmd.Recursive =
      Props.recursiveOf occ := by
    rw [hR]
    rfl
  have hH1 : (occ.foldl command.FlagSet.set command.flagSetInit).cmd.help =
      Props.helpOf occ := by
    rw [hH]
    rfl
  simp only [command.Parse, hD1, hC1, hE1, hH1, hR1, List.length_eq_zero]
  by_cases hreq : Props.dirsOf occ = [] ∨ Props.cmdsOf occ = []
  · simp [hreq]
  · rw [if_neg hreq, if_neg hreq]
    by_cases hh : Props.helpOf occ = true
    · simp [hh]
    · rw [if_neg hh, if_neg hh]
      simp only [Bool.not_eq_true] at hh
      simp [command.new, hh]

/-- C9: for every command line whose flags parse, `Parse` ends as follows. If
no `-d` directory or no `-c` command was given it exits through `errExit` with
"-d DIR and -c CMD are required" and produces no command. Otherwise, unless help
is requested, it returns a command, and that command is
`new(dirs, cmds, ext, recursive, false)`: the directories and the commands in
command-line order, the extensions as given (["md"] when none was given),
`Recursive` as flagged (false by default) and `Regex = buildRegex(ext)`. So,
without a help request, a command is returned if and only if at least one
directory and at least one command were given. -/
theorem C9_Parse_outcome (occ : List command.FlagArg) :
    (command.Parse (.ok occ) =
      if Props.dirsOf occ = [] ∨ Props.cmdsOf occ = [] then
        .errExit "-d DIR and -c CMD are required"
      else if Props.helpOf occ = true then .helpExit
      else .returned (command.new (Props.dirsOf occ) (Props.cmdsOf occ) (Props.extOf occ)
        (Props.recursiveOf occ) false)) ∧
    (command.new (Props.dirsOf occ) (Props.cmdsOf occ) (Props.extOf occ)
        (Props.recursiveOf occ) false).Regex = command.buildRegex (Props.extOf occ) ∧
    (Props.helpOf occ = false ∨
      ¬ ∃ cmd, command.Parse (.ok occ) = .returned cmd) ∧
    (Props.helpOf occ = true ∨
      ((∃ cmd, command.Parse (.ok occ) = .returned cmd) ↔
        (Props.dirsOf occ ≠ [] ∧ Props.cmdsOf occ ≠ []))) := by
  have hP := command.Parse_ok occ
  refine ⟨hP, rfl, ?_, ?_⟩
  · by_cases hh : Props.helpOf occ = true
    · right
      rw [hP]
      by_cases hreq : Props.dirsOf occ = [] ∨ Props.cmdsOf occ = [] <;> simp [hreq, hh]
    · left
      simpa using hh
  · by_cases hh : Props.helpOf occ = true
    · exact Or.inl hh
    · right
      rw [hP]
      by_cases hreq : Props.dirsOf occ = [] ∨ Props.cmdsOf occ = []
      · simp only [hreq, if_true]
        constructor
        · rintro ⟨cmd, hcmd⟩
          cases hcmd
        · intro h
          rcases hreq with h1 | h1
          · exact absurd h1 h.1
          · exact absurd h1 h.2
      · rw [if_neg hreq, if_neg hh]
        constructor
        · intro _
          exact not_or.mp hreq
        · intro _
          exact ⟨_, rfl⟩

/-! ## Matching: the meaning of the expressions that `buildRegex` produces -/

theorem regexp.mem_splits (s p q : List Char) :
    (p, q) ∈ regexp.splits s ↔ p ++ q = s := by
  induction s generalizing p with
  | nil => simp [regexp.splits]
  | cons c cs ih =>
    cases p with
    | nil => simp [regexp.splits]
    | cons d p =>
      simp only [regexp.splits, List.mem_cons, Prod.mk.injEq, List.mem_map, Prod.exists,
        List.cons_append, List.cons.injEq]
      constructor
      · rintro (⟨h, _⟩ | ⟨a, b, hab, ⟨hc, ha⟩, hb⟩)
        · cases h
        · subst hc ha hb
          exact ⟨rfl, (ih a).mp hab⟩
      · rintro ⟨hd, hpq⟩
        right
        exact ⟨p, q, (ih p).mpr hpq, ⟨hd.symm, rfl⟩, rfl⟩

theorem regexp.any_splits (s : List Char) (f : List Char × List Char → Bool) :
    (regexp.splits s).any f = true ↔ ∃ p q, p ++ q = s ∧ f (p, q) = true := by
  rw [List.any_eq_true]
  constructor
  · rintro ⟨⟨p, q⟩, hmem, hf⟩
    exact ⟨p, q, (regexp.mem_splits s p q).mp hmem, hf⟩
  · rintro ⟨p, q, hpq, hf⟩
    exact ⟨(p, q), (regexp.mem_splits s p q).mpr hpq, hf⟩

theorem regexp.matchSpan_concat (a b : regexp.Regexp) (atBegin atEnd : Bool) (s : List Char) :
    regexp.matchSpan (.concat a b) atBegin atEnd s = true ↔
      ∃ p q, p ++ q = s ∧ regexp.matchSpan a atBegin (atEnd && q.isEmpty) p = true ∧
        regexp.matchSpan b (atBegin && p.isEmpty) atEnd q = true := by
  rw [regexp.matchSpan, regexp.any_splits]
  simp only [Bool.and_eq_true]

theorem regexp.matchSpan_literal (c : Char) (atBegin atEnd : Bool) (s : List Char) :
    regexp.matchSpan (.literal c) atBegin atEnd s = true ↔ s = [c] := by
  simp [regexp.matchSpan]

theorem regexp.matchSpan_anyCharNotNL (atBegin atEnd : Bool) (s : List Char) :
    regexp.matchSpan .anyCharNotNL atBegin atEnd s = true ↔ ∃ c, s = [c] ∧ c ≠ '\n' := by
  match s with
  | [] => simp [regexp.matchSpan]
  | [c] => simp [regexp.matchSpan]
  | _ :: _ :: _ => simp [regexp.matchSpan]

theorem regexp.matchSpan_endText (atBegin atEnd : Bool) (s : List Char) :
    regexp.matchSpan .endText atBegin atEnd s = true ↔ s = [] ∧ atEnd = true := by
  simp [regexp.matchSpan]

theorem regexp.matchSpan_literals (c : Char) (cs : List Char) (atBegin atEnd : Bool)
    (s : List Char) :
    regexp.matchSpan (regexp.collapse .concat (.literal c) (cs.map .literal)) atBegin atEnd s
      = true ↔ s = c :: cs := by
  induction cs generalizing c s atBegin atEnd with
  | nil => simp [regexp.collapse, regexp.matchSpan_literal]
  | cons d cs ih =>
    simp only [List.map_cons, regexp.collapse, regexp.matchSpan_concat,
      regexp.matchSpan_literal, ih]
    constructor
    · rintro ⟨p, q, hpq, hp, hq⟩
      subst hp hq
      exact hpq.symm
    · intro h
      exact ⟨[c], d :: cs, by simp [h], rfl, rfl⟩

theorem regexp.matchSpan_alternatives (r : regexp.Regexp) (rs : List regexp.Regexp)
    (atBegin atEnd : Bool) (s : List Char) :
    regexp.matchSpan (regexp.collapse .alternate r rs) atBegin atEnd s = true ↔
      ∃ x ∈ r :: rs, regexp.matchSpan x atBegin atEnd s = true := by
  induction rs generalizing r with
  | nil => simp [regexp.collapse]
  | cons r2 rs ih =>
    simp only [regexp.collapse, regexp.matchSpan, Bool.or_eq_true, ih]
    simp

theorem regexp.repeatSpan_anyCharNotNL (n : Nat) (atBegin atEnd : Bool) (s : List Char)
    (h : regexp.repeatSpan (fun b e x => regexp.matchSpan .anyCharNotNL b e x) n
      atBegin atEnd s = true) :
    s = [] ∨ ∃ (init : List Char) (c : Char), s = init ++ [c] ∧ c ≠ '\n' := by
  induction n generalizing atBegin s with
  | zero =>
    left
    simpa [regexp.repeatSpan] using h
  | succ n ih =>
    rw [regexp.repeatSpan, Bool.or_eq_true, regexp.any_splits] at h
    rcases h with h | ⟨p, q, hpq, hf⟩
    · left
      simpa using h
    · right
      simp only [Bool.and_eq_true, regexp.matchSpan_anyCharNotNL] at hf
      obtain ⟨⟨_, c, hp, hc⟩, hq⟩ := hf
      rcases ih false q hq with hq1 | ⟨init, d, hq1, hd⟩
      · exact ⟨[], c, by simp [← hpq, hp, hq1], hc⟩
      · exact ⟨c :: init, d, by simp [← hpq, hp, hq1], hd⟩

theorem regexp.matchSpan_plus_anyCharNotNL (atBegin atEnd : Bool) (s : List Char)
    (h : regexp.matchSpan (.plus .anyCharNotNL) atBegin atEnd s = true) :
    ∃ (init : List Char) (c : Char), s = init ++ [c] ∧ c ≠ '\n' := by
  rw [regexp.matchSpan, regexp.any_splits] at h
  obtain ⟨p, q, hpq, hf⟩ := h
  simp only [Bool.and_eq_true, regexp.matchSpan_anyCharNotNL] at hf
  obtain ⟨⟨c, hp, hc⟩, hq⟩ := hf
  rcases regexp.repeatSpan_anyCharNotNL _ _ _ q hq with hq1 | ⟨init, d, hq1, hd⟩
  · exact ⟨[], c, by simp [← hpq, hp, hq1], hc⟩
  · exact ⟨c :: init, d, by simp [← hpq, hp, hq1], hd⟩

theorem regexp.matchSpan_plus_single (atBegin atEnd : Bool) (c : Char) (hc : c ≠ '\n') :
    regexp.matchSpan (.plus .anyCharNotNL) atBegin atEnd [c] = true := by
  rw [regexp.matchSpan, regexp.any_splits]
  refine ⟨[c], [], rfl, ?_⟩
  simp [regexp.matchSpan, regexp.repeatSpan, hc]

theorem regexp.MatchString_iff (re : regexp.Regexp) (s : String) :
    re.MatchString s = true ↔
      ∃ p m q, p ++ (m ++ q) = s.toList ∧
        regexp.matchSpan re p.isEmpty q.isEmpty m = true := by
  rw [regexp.Regexp.MatchString, regexp.any_splits]
  constructor
  · rintro ⟨p, rest, hp, hf⟩
    rw [regexp.any_splits] at hf
    obtain ⟨m, q, hmq, hm⟩ := hf
    exact ⟨p, m, q, by rw [hmq, hp], hm⟩
  · rintro ⟨p, m, q, hs, hm⟩
    refine ⟨p, m ++ q, hs, ?_⟩
    rw [regexp.any_splits]
    exact ⟨m, q, rfl, hm⟩

/-! ## Parsing: the expression that `buildRegex` produces from plain tokens -/

theorem regexp.step_plain (c : Char) (next : Option Char) (mode : regexp.Mode)
    (stack : List regexp.Item) (h : regexp.isMeta c = false) (hm : mode ≠ .escape) :
    regexp.step c next mode stack = .ok (.plain, .re (.literal c) :: stack) := by
  simp only [regexp.isMeta, Bool.or_eq_false_iff, decide_eq_false_iff_not] at h
  obtain ⟨⟨⟨⟨⟨⟨⟨⟨⟨⟨⟨h1, h2⟩, h3⟩, h4⟩, h5⟩, h6⟩, h7⟩, h8⟩, h9⟩, h10⟩, h11⟩, h12⟩ := h
  simp [regexp.step, h1, h2, h3, h4, h5, h6, h7, h8, h9, h10, h11, h12, hm]

theorem regexp.parseLoop_plain (c : Char) (t : List Char) (mode : regexp.Mode)
    (stack : List regexp.Item) (h : regexp.isMeta c = false) (hm : mode ≠ .escape) :
    regexp.parseLoop (c :: t) mode stack =
      regexp.parseLoop t .plain (.re (.literal c) :: stack) := by
  rw [regexp.parseLoop, regexp.step_plain c _ mode stack h hm]

theorem regexp.parseLoop_plains (cs t : List Char) (mode : regexp.Mode)
    (stack : List regexp.Item) (h : ∀ c ∈ cs, regexp.isMeta c = false)
    (hm : mode ≠ .escape) :
    regexp.parseLoop (cs ++ t) mode stack =
      regexp.parseLoop t (if cs = [] then mode else .plain)
        (cs.reverse.map (fun c => regexp.Item.re (.literal c)) ++ stack) := by
  induction cs generalizing mode stack with
  | nil => simp
  | cons c cs ih =>
    rw [List.cons_append, regexp.parseLoop_plain c _ mode stack (h c (by simp)) hm,
      ih .plain _ (fun d hd => h d (by simp [hd])) (by decide)]
    simp

theorem regexp.popRegexps_map (rs : List regexp.Regexp) (below : List regexp.Item)
    (acc : List regexp.Regexp) :
    regexp.popRegexps (rs.map .re ++ below) acc =
      regexp.popRegexps below (rs.reverse ++ acc) := by
  induction rs generalizing acc with
  | nil => simp
  | cons r rs ih =>
    rw [List.map_cons, List.cons_append, regexp.popRegexps, ih]
    simp

theorem regexp.popRegexps_leftParen (base : List regexp.Item) (acc : List regexp.Regexp) :
    regexp.popRegexps (.leftParen :: base) acc = (acc, .leftParen :: base) := by
  rw [regexp.popRegexps]
  intro r rest h
  cases h

theorem regexp.popRegexps_verticalBar (base : List regexp.Item) (acc : List regexp.Regexp) :
    regexp.popRegexps (.verticalBar :: base) acc = (acc, .verticalBar :: base) := by
  rw [regexp.popRegexps]
  intro r rest h
  cases h

theorem regexp.popRegexps_pending (done : List regexp.Regexp) (base : List regexp.Item)
    (acc : List regexp.Regexp) :
    regexp.popRegexps (Props.pendingAlternatives done ++ .leftParen :: base) acc =
      (acc, Props.pendingAlternatives done ++ .leftParen :: base) := by
  cases done with
  | nil => exact regexp.popRegexps_leftParen base acc
  | cons d ds => exact regexp.popRegexps_verticalBar _ acc

theorem regexp.concat_token (t : String) (done : List regexp.Regexp)
    (base : List regexp.Item) :
    regexp.concat (t.toList.reverse.map (fun c => regexp.Item.re (.literal c)) ++
        (Props.pendingAlternatives done ++ .leftParen :: base)) =
      .re (Props.tokenLiteral t) :: (Props.pendingAlternatives done ++ .leftParen :: base) := by
  have h : t.toList.reverse.map (fun c => regexp.Item.re (.literal c)) =
      (t.toList.reverse.map regexp.Regexp.literal).map .re := by
    simp [List.map_map, Function.comp_def]
  rw [regexp.concat, h, regexp.popRegexps_map, regexp.popRegexps_pending]
  simp [Props.tokenLiteral, List.map_reverse]

theorem regexp.parseVerticalBar_token (t : String) (done : List regexp.Regexp)
    (base : List regexp.Item) :
    regexp.parseVerticalBar (t.toList.reverse.map (fun c => regexp.Item.re (.literal c)) ++
        (Props.pendingAlternatives done ++ .leftParen :: base)) =
      Props.pendingAlternatives (done ++ [Props.tokenLiteral t]) ++ .leftParen :: base := by
  rw [regexp.parseVerticalBar, regexp.concat_token]
  cases done with
  | nil => simp [Props.pendingAlternatives, regexp.swapVerticalBar]
  | cons d ds => simp [Props.pendingAlternatives, regexp.swapVerticalBar]

theorem regexp.closeAlternation_token (t : String) (done : List regexp.Regexp)
    (base : List regexp.Item) :
    regexp.closeAlternation (t.toList.reverse.map (fun c => regexp.Item.re (.literal c)) ++
        (Props.pendingAlternatives done ++ .leftParen :: base)) =
      .re (regexp.alternateOf (done ++ [Props.tokenLiteral t])) :: .leftParen :: base := by
  rw [regexp.closeAlternation, regexp.concat_token]
  cases done with
  | nil =>
    simp [Props.pendingAlternatives, regexp.swapVerticalBar, regexp.alternate,
      regexp.popRegexps, regexp.popRegexps_leftParen]
  | cons d ds =>
    have h := regexp.popRegexps_map (Props.tokenLiteral t :: (d :: ds).reverse)
      (.leftParen :: base) []
    rw [regexp.popRegexps_leftParen] at h
    simp only [List.map_cons, List.cons_append] at h
    simp only [Props.pendingAlternatives, regexp.swapVerticalBar, List.cons_append,
      List.tail_cons, regexp.alternate, h]
    simp

theorem regexp.parseLoop_verticalBar (t : List Char) (mode : regexp.Mode)
    (stack : List regexp.Item) (hm : mode ≠ .escape) :
    regexp.parseLoop ('|' :: t) mode stack =
      regexp.parseLoop t .plain (regexp.parseVerticalBar stack) := by
  rw [regexp.parseLoop]
  simp [regexp.step, hm]

theorem regexp.parseLoop_rightParen (t : List Char) (mode : regexp.Mode)
    (stack stack1 : List regexp.Item) (hm : mode ≠ .escape)
    (h : regexp.parseRightParen stack = .ok stack1) :
    regexp.parseLoop (')' :: t) mode stack = regexp.parseLoop t .plain stack1 := by
  rw [regexp.parseLoop]
  simp [regexp.step, hm, h]

theorem regexp.ite_mode_ne_escape (cs : List Char) (mode : regexp.Mode)
    (hm : mode ≠ .escape) : (if cs = [] then mode else regexp.Mode.plain) ≠ .escape := by
  split
  · exact hm
  · decide

theorem regexp.parseLoop_group (rest : List String) (t : String) (done : List regexp.Regexp)
    (mode : regexp.Mode) (base : List regexp.Item) (tail : List Char)
    (ht : Props.plainToken t) (hrest : ∀ u ∈ rest, Props.plainToken u)
    (hm : mode ≠ .escape) :
    regexp.parseLoop (t.toList ++ (Props.barred rest ++ ')' :: tail)) mode
        (Props.pendingAlternatives done ++ .leftParen :: base) =
      regexp.parseLoop tail .plain
        (.re (.capture (regexp.alternateOf
          (done ++ Props.tokenLiteral t :: rest.map Props.tokenLiteral))) :: base) := by
  induction rest generalizing t done mode with
  | nil =>
    rw [regexp.parseLoop_plains _ _ mode _ ht hm]
    simp only [Props.barred, List.nil_append, List.map_nil]
    apply regexp.parseLoop_rightParen _ _ _ _ (regexp.ite_mode_ne_escape _ _ hm)
    rw [regexp.parseRightParen, regexp.closeAlternation_token]
  | cons u rest ih =>
    rw [regexp.parseLoop_plains _ _ mode _ ht hm]
    simp only [Props.barred, List.cons_append]
    rw [regexp.parseLoop_verticalBar _ _ _ (regexp.ite_mode_ne_escape _ _ hm),
      regexp.parseVerticalBar_token, List.append_assoc,
      ih u (done ++ [Props.tokenLiteral t]) .plain (hrest u (by simp))
        (fun v hv => hrest v (by simp [hv])) (by decide)]
    simp

theorem strings.Join_toList (t : String) (rest : List String) :
    (strings.Join (t :: rest) "|").toList = t.toList ++ Props.barred rest := by
  rw [strings.Join_eq_joinedWith]
  induction rest generalizing t with
  | nil => simp [Props.joinedWith, Props.barred]
  | cons u rest ih =>
    rw [Props.joinedWith, String.toList, String.data_append, String.data_append]
    · have := ih u
      rw [String.toList] at this
      rw [this]
      simp [Props.barred, String.toList]
    · simp

theorem command.buildRegex_toList (t : String) (rest : List String) :
    (command.buildRegex (t :: rest)).toList =
      '.' :: '+' :: '\\' :: '.' :: '(' :: (t.toList ++ (Props.barred rest ++ [')', '$'])) := by
  rw [command.buildRegex, fmt.Sprintf_pattern]
  have h := strings.Join_toList t rest
  rw [String.toList] at h
  simp [String.toList, String.data_append, h]

theorem Props.head_not_quest (t : String) (rest : List String) (tail : List Char)
    (ht : Props.plainToken t) :
    (t.toList ++ (Props.barred rest ++ ')' :: tail)).head? ≠ some '?' := by
  cases hl : t.toList with
  | nil =>
    cases rest with
    | nil => simp [Props.barred]
    | cons u rest => simp [Props.barred]
  | cons c cs =>
    have hc : regexp.isMeta c = false := ht c (by rw [hl]; exact List.mem_cons_self _ _)
    simp only [List.cons_append, List.head?_cons, ne_eq, Option.some.injEq]
    intro h
    rw [h] at hc
    revert hc
    decide

theorem regexp.parseLoop_head (x : List Char) (hq : x.head? ≠ some '?') :
    regexp.parseLoop ('.' :: '+' :: '\\' :: '.' :: '(' :: x) .plain [] =
      regexp.parseLoop x .plain
        [.leftParen, .re (.literal '.'), .re (.plus .anyCharNotNL)] := by
  have h1 : ('.'.toNat < 128 ∧ ¬ '.'.isAlphanum = true) := by decide
  simp only [regexp.parseLoop, regexp.step, regexp.repeatOp, hq, h1]
  simp

theorem regexp.parse_buildRegex (t : String) (rest : List String)
    (h : ∀ u ∈ t :: rest, Props.plainToken u) :
    regexp.parse (command.buildRegex (t :: rest)) = .ok (Props.suffixPattern (t :: rest)) := by
  have ht : Props.plainToken t := h t (by simp)
  have hrest : ∀ u ∈ rest, Props.plainToken u := fun u hu => h u (by simp [hu])
  have hq := Props.head_not_quest t rest ['$'] ht
  have hg := regexp.parseLoop_group rest t [] .plain
    [.re (.literal '.'), .re (.plus .anyCharNotNL)] ['$'] ht hrest (by decide)
  simp only [Props.pendingAlternatives, List.nil_append] at hg
  rw [regexp.parse, command.buildRegex_toList, regexp.parseLoop_head _ hq, hg]
  simp [regexp.parseLoop, regexp.step, regexp.parseEnd, regexp.closeAlternation,
    regexp.concat, regexp.popRegexps, regexp.swapVerticalBar, regexp.alternate,
    regexp.concatOf, regexp.alternateOf, regexp.collapse, Props.suffixPattern]

/-! ## The name filter -/

theorem regexp.matchSpan_tokenLiteral (u : String) (atBegin atEnd : Bool) (a : List Char) :
    regexp.matchSpan (Props.tokenLiteral u) atBegin atEnd a = true ↔ a = u.toList := by
  unfold Props.tokenLiteral
  cases u.toList with
  | nil => simp [regexp.concatOf, regexp.matchSpan]
  | cons c cs => simp [regexp.concatOf, regexp.matchSpan_literals]

theorem regexp.matchSpan_alternateOf (toks : List String) (hne : toks ≠ [])
    (atBegin atEnd : Bool) (a : List Char) :
    regexp.matchSpan (regexp.alternateOf (toks.map Props.tokenLiteral)) atBegin atEnd a = true ↔
      ∃ u ∈ toks, a = u.toList := by
  cases toks with
  | nil => exact absurd rfl hne
  | cons t rest =>
    rw [List.map_cons, regexp.alternateOf, regexp.matchSpan_alternatives]
    constructor
    · rintro ⟨x, hx, hm⟩
      rw [← List.map_cons, List.mem_map] at hx
      obtain ⟨u, hu, rfl⟩ := hx
      exact ⟨u, hu, (regexp.matchSpan_tokenLiteral u _ _ a).mp hm⟩
    · rintro ⟨u, hu, ha⟩
      refine ⟨Props.tokenLiteral u, ?_, (regexp.matchSpan_tokenLiteral u _ _ a).mpr ha⟩
      rw [← List.map_cons]
      exact List.mem_map_of_mem _ hu

theorem regexp.matchSpan_suffixPattern (toks : List String) (hne : toks ≠ [])
    (atBegin atEnd : Bool) (m : List Char) :
    regexp.matchSpan (Props.suffixPattern toks) atBegin atEnd m = true ↔
      atEnd = true ∧ ∃ (m1 : List Char) (u : String), u ∈ toks ∧ m = m1 ++ '.' :: u.toList ∧
        regexp.matchSpan (.plus .anyCharNotNL) atBegin false m1 = true := by
  unfold Props.suffixPattern
  simp only [regexp.matchSpan_concat, regexp.matchSpan_literal, regexp.matchSpan_endText]
  constructor
  · rintro ⟨m1, r1, h1, hplus, d, r2, h2, hd, a, z, h3, ha, hz, he⟩
    subst hz hd
    rw [List.append_nil] at h3
    subst h3
    rw [regexp.matchSpan, regexp.matchSpan_alternateOf toks hne] at ha
    obtain ⟨u, hu, hau⟩ := ha
    subst hau h2
    refine ⟨he, m1, u, hu, h1.symm, ?_⟩
    simpa using hplus
  · rintro ⟨he, m1, u, hu, hm, hplus⟩
    refine ⟨m1, '.' :: u.toList, hm.symm, by simpa using hplus, ['.'], u.toList, rfl, rfl,
      u.toList, [], by simp, ?_, rfl, he⟩
    rw [regexp.matchSpan, regexp.matchSpan_alternateOf toks hne]
    exact ⟨u, hu, rfl⟩

theorem regexp.MatchString_suffixPattern (toks : List String) (hne : toks ≠ [])
    (name : String) :
    (Props.suffixPattern toks).MatchString name = true ↔
      ∃ t ∈ toks, Props.endsInCharDotToken name t := by
  rw [regexp.MatchString_iff]
  constructor
  · rintro ⟨p, m, q, hs, hm⟩
    rw [regexp.matchSpan_suffixPattern toks hne] at hm
    obtain ⟨hq, m1, u, hu, hmu, hplus⟩ := hm
    obtain ⟨init, c, hinit, hc⟩ := regexp.matchSpan_plus_anyCharNotNL _ _ m1 hplus
    have hq1 : q = [] := by simpa using hq
    refine ⟨u, hu, String.mk (p ++ init), c, hc, ?_⟩
    apply String.ext
    have : name.data = p ++ (m ++ q) := hs.symm
    rw [this, hmu, hinit, hq1]
    simp [String.data_append, String.toList]
  · rintro ⟨u, hu, pre, c, hc, hname⟩
    refine ⟨pre.toList, c :: '.' :: u.toList, [], ?_, ?_⟩
    · rw [hname]
      simp [String.data_append, String.toList]
    · rw [regexp.matchSpan_suffixPattern toks hne]
      exact ⟨rfl, [c], u, hu, rfl, regexp.matchSpan_plus_single _ _ c hc⟩

theorem regexp.Compile_buildRegex (toks : List String) (hne : toks ≠ [])
    (h : ∀ u ∈ toks, Props.plainToken u) :
    regexp.Compile (command.buildRegex toks) = some (Props.suffixPattern toks).MatchString := by
  cases toks with
  | nil => exact absurd rfl hne
  | cons t rest => rw [regexp.Compile, regexp.parse_buildRegex t rest h]

/-- C6, amended: for every non-empty list of tokens made of characters that the
expression language reads as themselves, and every file name, the pattern
`buildRegex(tokens)` compiles and the name-filter hook built from it admits the
name if and only if the name ends in a character other than a line feed,
followed by a dot, followed by one of the tokens (case-sensitive, unanchored at
the start); every other name is rejected. -/
theorem C6_name_filter_plain_tokens (toks : List String) (name fullPath : String)
    (hne : toks ≠ []) (hplain : ∀ t ∈ toks, Props.plainToken t) :
    ∃ re, regexp.Compile (command.buildRegex toks) = some re ∧
      (watcher.RegexFilterHook re false name fullPath = true ↔
        ∃ t ∈ toks, Props.endsInCharDotToken name t) := by
  refine ⟨_, regexp.Compile_buildRegex toks hne hplain, ?_⟩
  simp only [watcher.RegexFilterHook, Bool.false_eq_true, if_false]
  exact regexp.MatchString_suffixPattern toks hne name

theorem Props.plainToken_md : ∀ t ∈ ["md", "txt"], Props.plainToken t := by
  intro t ht
  simp only [List.mem_cons, List.mem_singleton, List.not_mem_nil, or_false] at ht
  rcases ht with rfl | rfl <;> unfold Props.plainToken <;> decide

theorem regexp.parse_unterminated :
    regexp.parse (command.buildRegex ["("]) = .error .missingParen := by
  rfl

theorem regexp.Compile_unterminated : regexp.Compile (command.buildRegex ["("]) = none := by
  rw [regexp.Compile, regexp.parse_unterminated]

/-- Witness of C6: the tokens md and txt and the name notes.txt. -/
theorem C6_name_filter_plain_tokens_witness :
    ["md", "txt"] ≠ [] ∧ (∀ t ∈ ["md", "txt"], Props.plainToken t) ∧
    ∃ re, regexp.Compile (command.buildRegex ["md", "txt"]) = some re ∧
      (watcher.RegexFilterHook re false "notes.txt" "/tmp/notes.txt" = true ↔
        ∃ t ∈ ["md", "txt"], Props.endsInCharDotToken "notes.txt" t) :=
  ⟨by decide, Props.plainToken_md,
    C6_name_filter_plain_tokens ["md", "txt"] "notes.txt" "/tmp/notes.txt" (by decide)
      Props.plainToken_md⟩

/-- Counterexample to C6 as stated: with the token md, the name `.md` ends in a
dot followed by the token, yet the hook rejects it; with the token `.`, the name
`a.b` does not end in a dot followed by the token, yet the hook admits it. -/
theorem C6_counterexample :
    ((regexp.Compile (command.buildRegex ["md"])).map
        (fun re => watcher.RegexFilterHook re false ".md" "/tmp/.md") = some false ∧
      ∃ t ∈ ["md"], Props.endsInDotToken ".md" t) ∧
    ((regexp.Compile (command.buildRegex ["."])).map
        (fun re => watcher.RegexFilterHook re false "a.b" "/tmp/a.b") = some true ∧
      ¬ ∃ t ∈ ["."], Props.endsInDotToken "a.b" t) := by
  refine ⟨⟨by decide, "md", by simp, "", by decide⟩, by decide, ?_⟩
  rintro ⟨t, ht, pre, hpre⟩
  simp only [List.mem_singleton] at ht
  subst ht
  have h := congrArg (fun s => s.data.getLast?) hpre
  simp [String.data_append] at h

/-- Witness of C4: the pattern built from the token `(` does not compile. -/
theorem C4_setup_bad_regex_witness :
    regexp.Compile
      (watch.New ["/tmp"] ["ls"] (command.buildRegex ["("]) false main.handler).Regex = none ∧
    (watch.Setup regexp.Compile (fun _ _ _ => false)
      (watch.New ["/tmp"] ["ls"] (command.buildRegex ["("]) false main.handler)).1 =
        some "couldn't compile regex: .+\\.(()$" ∧
    (watch.Setup regexp.Compile (fun _ _ _ => false)
      (watch.New ["/tmp"] ["ls"] (command.buildRegex ["("]) false main.handler)).2.watcher.names
        = [] := by
  have h := C4_setup_bad_regex regexp.Compile (fun _ _ _ => false)
    (watch.New ["/tmp"] ["ls"] (command.buildRegex ["("]) false main.handler)
    regexp.Compile_unterminated
  refine ⟨regexp.Compile_unterminated, ?_, ?_⟩
  · rw [h.1]
    decide
  · rw [h.2.2.1]
    rfl

/-- Witness of C3: of the directories /a, /b, /c the second cannot be
registered. -/
theorem C3_setup_registration_witness :
    (watch.Setup regexp.Compile (fun _ _ d => d == "/b")
      (watch.New ["/a", "/b", "/c"] ["ls"] (command.buildRegex ["md", "txt"]) false
        main.handler)).1 = some "failed to watch dir: /b" ∧
    (watch.Setup regexp.Compile (fun _ _ d => d == "/b")
      (watch.New ["/a", "/b", "/c"] ["ls"] (command.buildRegex ["md", "txt"]) false
        main.handler)).2.watcher.names = [("/a", false)] ∧
    (watch.Setup regexp.Compile (fun _ _ d => d == "/b")
      (watch.New ["/a", "/b", "/c"] ["ls"] (command.buildRegex ["md", "txt"]) false
        main.handler)).2.watcher.addCalls = [("/a", false), ("/b", false)] := by
  have h := (C3_setup_registration regexp.Compile (fun _ _ d => d == "/b")
    (watch.New ["/a", "/b", "/c"] ["ls"] (command.buildRegex ["md", "txt"]) false main.handler)
    (Props.suffixPattern ["md", "txt"]).MatchString
    (regexp.Compile_buildRegex ["md", "txt"] (by decide) Props.plainToken_md)).1
    ["/a"] "/b" ["/c"] rfl
    (by
      intro k hk
      cases k with
      | zero => rfl
      | succ n => simp at hk)
    (by decide)
  rw [h]
  refine ⟨by decide, rfl, rfl⟩

/-! ## Construction of the configuration -/

/-- Counterexample to C8 as stated: the command line `-d /tmp -c ls -e (` yields
a pattern that does not compile, yet `Parse` followed by `New` produces a
configuration, which carries that pattern. -/
theorem C8_counterexample :
    regexp.Compile (command.buildRegex ["("]) = none ∧
    Props.extOf [.dirs "/tmp", .cmds "ls", .ext "("] = ["("] ∧
    (main.configure (.ok [.dirs "/tmp", .cmds "ls", .ext "("]) main.handler).map
      (fun w => (w.Dirs, w.Cmds, w.Regex, w.Recursive)) =
        some (["/tmp"], ["ls"], ".+\\.(()$", false) := by
  refine ⟨regexp.Compile_unterminated, by decide, by decide⟩

/-- C8, amended: whatever `regexp.Compile` is (it is the parameter `compile`),
for every command line that gives at least one directory and one command, does
not request help, and whose extension-derived pattern does not compile, `Parse`
followed by `New` does produce a configuration, which carries that pattern
unchecked; the failure is reported only when `Setup` is attempted, with the
error "couldn't compile regex: " followed by the pattern. -/
theorem C8_construction_unvalidated {σ : Type} (compile : String → Option (String → Bool))
    (occ : List command.FlagArg) (handler : watch.Op → String → σ → σ)
    (addFails : Bool → watcher.Watcher → String → Bool)
    (hd : Props.dirsOf occ ≠ []) (hc : Props.cmdsOf occ ≠ [])
    (hh : Props.helpOf occ = false)
    (hbad : compile (command.buildRegex (Props.extOf occ)) = none) :
    ∃ w, main.configure (.ok occ) handler = some w ∧
      w.Dirs = Props.dirsOf occ ∧ w.Cmds = Props.cmdsOf occ ∧
      w.Recursive = Props.recursiveOf occ ∧
      w.Regex = command.buildRegex (Props.extOf occ) ∧
      (watch.Setup compile addFails w).1 =
        some ("couldn't compile regex: " ++ command.buildRegex (Props.extOf occ)) := by
  have hP := command.Parse_ok occ
  rw [if_neg (by simp [hd, hc]), if_neg (by simp [hh])] at hP
  refine ⟨_, by rw [main.configure, hP], rfl, rfl, rfl, rfl, ?_⟩
  exact (watch.Setup_bad_regex compile addFails _ hbad).1

/-- Witness of C8: the command line `-d /tmp -c ls -e (`, whose pattern
`.+\.(()$` has an unterminated group. -/
theorem C8_construction_unvalidated_witness :
    regexp.Compile (command.buildRegex (Props.extOf [.dirs "/tmp", .cmds "ls", .ext "("])) = none ∧
    ∃ w, main.configure (.ok [.dirs "/tmp", .cmds "ls", .ext "("]) main.handler = some w ∧
      w.Dirs = Props.dirsOf [.dirs "/tmp", .cmds "ls", .ext "("] ∧
      w.Cmds = Props.cmdsOf [.dirs "/tmp", .cmds "ls", .ext "("] ∧
      w.Recursive = Props.recursiveOf [.dirs "/tmp", .cmds "ls", .ext "("] ∧
      w.Regex = command.buildRegex (Props.extOf [.dirs "/tmp", .cmds "ls", .ext "("]) ∧
      (watch.Setup regexp.Compile (fun _ _ _ => false) w).1 =
        some ("couldn't compile regex: " ++
          command.buildRegex (Props.extOf [.dirs "/tmp", .cmds "ls", .ext "("])) :=
  ⟨regexp.Compile_unterminated,
    C8_construction_unvalidated regexp.Compile [.dirs "/tmp", .cmds "ls", .ext "("]
      main.handler (fun _ _ _ => false) (by decide) (by decide) (by decide)
      regexp.Compile_unterminated⟩
